import Mathlib

/-! Shallow embedding of `src/mtg_draft_analysis.py` (class `DraftSimulator`):
sealed-pool generation (`generate_sealed_pool`), deck construction
(`build_deck`), the per-run archetype selection of `simulate_drafts`, and
the statistics of `analyze_drafts`.

Python floats (card scores, mana values, distribution weights) are modelled
as exact rationals; the only float operations the source performs are
comparisons and multiplications by the fixed archetype weights, so the
rational model is faithful for every property stated here.  Python dicts of
card fields are modelled as structures, and the random stream is passed
explicitly where the source draws from the global `random` generator.
-/

set_option maxRecDepth 20000

/-- The five Magic colors, the only values the `colors` field of a loaded
card record may contain (data model: colors ⊆ {W,U,B,R,G}). -/
inductive MColor
  | W
  | U
  | B
  | R
  | G
deriving DecidableEq, Repr

/-- The single-letter code of a color, as it appears in archetype strings
and mana-cost strings. -/
def MColor.toChar : MColor → Char
  | .W => 'W'
  | .U => 'U'
  | .B => 'B'
  | .R => 'R'
  | .G => 'G'

/-- A card record as `build_deck` extracts it (lines 348-356 of the source):
exactly the seven fields the deck builder reads. -/
structure Card where
  name : String
  colors : List MColor
  cmc : ℚ
  type_line : String
  rarity : String
  oracle_text : String
  mana_cost : String
deriving DecidableEq, Repr

instance : Inhabited Card := ⟨⟨"", [], 0, "", "", "", ""⟩⟩

/-- Python substring test `needle in hay`, on exploded strings. -/
def listContainsSub (n : List Char) : List Char → Bool
  | [] => n.isEmpty
  | c :: t => n.isPrefixOf (c :: t) || listContainsSub n t

/-- Python substring test `needle in hay`. -/
def strContains (needle hay : String) : Bool :=
  listContainsSub needle.toList hay.toList

/-- Python `str.lower`; the repository lowercases only ASCII rules text. -/
def lowerStr (s : String) : String :=
  String.mk (s.toList.map Char.toLower)

/-- Python `str.count` for a single-character needle. -/
def countChar (c : Char) (s : String) : ℕ :=
  s.toList.count c

/-- The characters of a card's `colors` field, for comparison against the
primary-color characters. -/
def Card.colorChars (c : Card) : List Char :=
  c.colors.map MColor.toChar

/-- The test `"Creature" in card["type_line"]`. -/
def Card.isCreature (c : Card) : Bool :=
  strContains "Creature" c.type_line

/-- The test `"Land" in card["type_line"]`. -/
def Card.isLand (c : Card) : Bool :=
  strContains "Land" c.type_line

/-- One entry of the `archetype_weights` table. -/
structure Profile where
  keywords : List String
  creature_weight : ℚ
  noncreature_weight : ℚ
  min_creatures : ℕ
deriving DecidableEq, Repr

/-- The `archetype_weights` table (source lines 52-268, uncommented entries
only), with the float weights as exact rationals. -/
def archetypeWeights : List (String × Profile) :=
  [ ("WB", ⟨["drain", "lifegain", "sacrifice", "afterlife", "cleric", "vampire", "knight", "extort", "token"], 1, 1, 15⟩),
    ("UR", ⟨["instant", "sorcery", "prowess", "draw", "wizard", "phoenix", "elemental", "flash", "copy"], 3/5, 7/5, 12⟩),
    ("BG", ⟨["graveyard", "deathtouch", "dredge", "scavenge", "insect", "fungus", "elf", "sacrifice", "undergrowth"], 11/10, 9/10, 16⟩),
    ("RW", ⟨["mentor", "attack", "equipment", "first strike", "double strike", "soldier", "warrior", "samurai", "haste"], 13/10, 7/10, 18⟩),
    ("GU", ⟨["adapt", "evolve", "counter", "flash", "mutate", "crab", "merfolk", "draw", "clone"], 11/10, 9/10, 16⟩),
    ("WBG", ⟨["outlast", "abzan", "lifelink", "deathtouch", "vigilance", "counter", "toughness", "spirit", "value"], 11/10, 9/10, 16⟩),
    ("URW", ⟨["prowess", "jeskai", "monk", "flying", "first strike", "noncreature", "instant", "sorcery", "trigger"], 4/5, 6/5, 13⟩),
    ("BGU", ⟨["delve", "sultai", "zombie", "snake", "naga", "self-mill", "graveyard", "deathtouch", "value"], 9/10, 11/10, 14⟩),
    ("RWB", ⟨["dash", "mardu", "warrior", "knight", "goblin", "haste", "first strike", "lifelink", "raid"], 6/5, 4/5, 17⟩),
    ("GUR", ⟨["ferocious", "temur", "flash", "elemental", "shaman", "draw", "power", "trample", "instants"], 1, 1, 15⟩),
    ("MONO_W", ⟨["vigilance", "lifelink", "enchantment", "soldier", "knight", "cleric", "human", "angel", "equipment"], 6/5, 4/5, 18⟩),
    ("MONO_U", ⟨["counter", "draw", "flash", "flying", "bounce", "wizard", "merfolk", "illusion", "artifact"], 7/10, 13/10, 12⟩),
    ("MONO_B", ⟨["destroy", "sacrifice", "discard", "zombie", "vampire", "demon", "deathtouch", "drain", "removal"], 1, 1, 15⟩),
    ("MONO_R", ⟨["damage", "haste", "goblin", "elemental", "dragon", "devil", "burn", "sacrifice", "attack"], 13/10, 7/10, 19⟩),
    ("MONO_G", ⟨["trample", "reach", "elf", "beast", "hydra", "wolf", "mana", "ramp", "+1/+1"], 7/5, 3/5, 20⟩),
    ("5C", ⟨["domain", "converge", "gate", "fixng", "ramp", "multicolor", "draw", "removal", "value"], 1, 1, 14⟩) ]

/-- The two-color codes `build_deck` recognizes (source line 383). -/
def twoColorCodes : List String :=
  ["WU", "UB", "BR", "RG", "GW", "WB", "UR", "BG", "RW", "GU"]

/-- The three-color codes `build_deck` recognizes (source line 386). -/
def threeColorCodes : List String :=
  ["WUB", "UBR", "BRG", "RGW", "GWU", "WBG", "URW", "BGU", "RWB", "GUR"]

/-- The keys of the `color_counts` dict that are single colors, in the
dict's insertion order (source line 359). -/
def wubrgChars : List Char :=
  ['W', 'U', 'B', 'R', 'G']

/-- Python `archetype.startswith("MONO_")`. -/
def isMonoCode (archetype : String) : Bool :=
  ("MONO_".toList).isPrefixOf archetype.toList

/-- The value `color_counts[c]` for a single color `c` (source lines 359-370): a card
adds one to the bucket of each of its component colors, whether it is mono-
or multicolored. -/
def colorCount (pool : List Card) (c : Char) : ℕ :=
  pool.countP (fun card => card.colorChars.contains c)

/-- Stable insertion of `x` before the first element `y` with `le x y`;
together with `pySortBy` this reproduces Python's stable `list.sort`. -/
def pyInsertBy (le : α → α → Bool) (x : α) : List α → List α
  | [] => [x]
  | y :: ys => if le x y then x :: y :: ys else y :: pyInsertBy le x ys

/-- Stable sort.  For a descending sort by key `f` (Python
`sort(key=f, reverse=True)`) use `le x y := f y ≤ f x`, for an ascending
sort use `le x y := f x ≤ f y`; both keep equal-keyed elements in their
original order, exactly as Python's stable sort does. -/
def pySortBy (le : α → α → Bool) : List α → List α
  | [] => []
  | x :: xs => pyInsertBy le x (pySortBy le xs)

/-- The `"auto"` color choice (source lines 375-382): the five single-color
buckets sorted by descending count (stable, so ties keep the dict order
W, U, B, R, G), truncated to two. -/
def autoColors (pool : List Card) : List Char :=
  (pySortBy (fun a b => decide (colorCount pool b ≤ colorCount pool a)) wubrgChars).take 2

/-- Primary-color resolution of `build_deck` (source lines 372-402).
`"MONO_<X>"` takes the final character of the code; an unrecognized code
falls through to the `"auto"` computation. -/
def resolvePrimaryColors (pool : List Card) (archetype : String) : List Char :=
  if archetype = "auto" then autoColors pool
  else if archetype ∈ twoColorCodes then archetype.toList
  else if archetype ∈ threeColorCodes then archetype.toList
  else if isMonoCode archetype then [archetype.toList.getLastD 'A']
  else if archetype = "5C" then wubrgChars
  else autoColors pool

/-- The `rarity_bonus` lookup with default 0 (source lines 424-425). -/
def rarityBonus : String → ℚ
  | "common" => 0
  | "uncommon" => 1
  | "rare" => 2
  | "mythic" => 3
  | _ => 0

/-- The removal-signal terms searched in lowercased rules text
(source line 437). -/
def removalTerms : List String :=
  ["destroy", "exile", "damage", "-", "fight"]

/-- Python `set(a) == set(b)` on character lists. -/
def pySetEqChars (a b : List Char) : Bool :=
  a.all (b.contains ·) && b.all (a.contains ·)

/-- The card score of `build_deck` (source lines 406-454), translated
statement by statement: each `let` is one `card["score"] +=` step, and the
final weight multiplication happens only when the archetype has a profile,
exactly as in the source. -/
def scoreCard (prim : List Char) (prof : Option Profile) (card : Card) : ℚ :=
  let s1 : ℚ := if card.colorChars.any (prim.contains ·) then 0 + 5 else 0
  let s2 := if pySetEqChars card.colorChars prim then s1 + 3 else s1
  let s3 := if card.colorChars.isEmpty && !card.isLand then s2 + 3 else s2
  let s4 := s3 + rarityBonus card.rarity
  let s5 := if card.cmc ≤ 3 then s4 + 2 else if card.cmc ≤ 5 then s4 + 1 else s4
  let s6 := if card.isCreature then s5 + 1 else s5
  let s7 :=
    if strContains "Removal" card.type_line
        || removalTerms.any (fun t => strContains t (lowerStr card.oracle_text)) then
      s6 + 2
    else s6
  match prof with
  | none => s7
  | some p =>
    let s8 := s7 + ((p.keywords.filter (fun k => strContains k (lowerStr card.oracle_text))).length : ℚ)
    if card.isCreature then s8 * p.creature_weight else s8 * p.noncreature_weight

/-- A `pool_data` entry after scoring: the extracted card plus its
per-build score. -/
structure SCard where
  card : Card
  score : ℚ
deriving DecidableEq, Repr

/-- The playability filter (source lines 456-469): lands are always kept,
non-lands are kept when colorless, sharing a primary color, or with colors a
subset of the primary colors (the last two tests overlap by design). -/
def isPlayable (prim : List Char) (sc : SCard) : Bool :=
  sc.card.isLand
    || (sc.card.colorChars.isEmpty
        || sc.card.colorChars.any (prim.contains ·)
        || sc.card.colorChars.all (prim.contains ·))

/-- The `primary_colors` of the given pool and archetype. -/
def primaryOf (pool : List Card) (archetype : String) : List Char :=
  resolvePrimaryColors pool archetype

/-- The lookup `self.archetype_weights.get(archetype)`. -/
def profileOf (archetype : String) : Option Profile :=
  archetypeWeights.lookup archetype

/-- The scored, playability-filtered pool (source lines 406-469). -/
def playablePool (pool : List Card) (archetype : String) : List SCard :=
  ((pool.map (fun c => SCard.mk c (scoreCard (primaryOf pool archetype) (profileOf archetype) c))).filter
    (isPlayable (primaryOf pool archetype)))

/-- The playable cards sorted by descending score, ties in original order
(source line 472). -/
def sortedPlayablePool (pool : List Card) (archetype : String) : List SCard :=
  pySortBy (fun a b => decide (b.score ≤ a.score)) (playablePool pool archetype)

/-- The `min_creatures` target (source lines 474-477): the profile value when the
archetype has one, otherwise 14. -/
def minCreaturesOf (archetype : String) : ℕ :=
  ((archetypeWeights.lookup archetype).map Profile.min_creatures).getD 14

/-- The `additional_creatures` list (source lines 492-494): the creatures of the
sorted remainder, up to the number still needed. -/
def additionalOf (sortedP : List SCard) (m : ℕ) : List SCard :=
  ((sortedP.drop 23).filter (fun sc => sc.card.isCreature)).take
    (m - (sortedP.take 23).countP (fun sc => sc.card.isCreature))

/-- The non-creatures the eviction loop removes (source lines 496-503): the
lowest-scored non-creatures of the initial selection, as many as creatures
are added (capped by availability). -/
def evictListOf (sortedP : List SCard) (m : ℕ) : List SCard :=
  let ncs := pySortBy (fun a b => decide (a.score ≤ b.score))
    ((sortedP.take 23).filter (fun sc => !sc.card.isCreature))
  ncs.take (min (additionalOf sortedP m).length ncs.length)

/-- The creature-count repair (source lines 479-506): take the top 23; when
short of creatures, remove the lowest-scored non-creatures (Python
`list.remove` deletes the first equal element, which `List.diff`'s iterated
`erase` reproduces) and append the additional creatures. -/
def adjustCreatures (sortedP : List SCard) (m : ℕ) : List SCard :=
  if (sortedP.take 23).countP (fun sc => sc.card.isCreature) < m then
    (sortedP.take 23).diff (evictListOf sortedP m) ++ additionalOf sortedP m
  else sortedP.take 23

/-- The re-truncation to 23 (source line 509). -/
def truncate23 (l : List SCard) : List SCard :=
  if 23 < l.length then l.take 23 else l

/-- Spell selection (source lines 479-509). -/
def selectSpells (sortedP : List SCard) (m : ℕ) : List SCard :=
  truncate23 (adjustCreatures sortedP m)

/-- The selected non-land slots of the deck for this pool and archetype. -/
def selectedOf (pool : List Card) (archetype : String) : List SCard :=
  selectSpells (sortedPlayablePool pool archetype) (minCreaturesOf archetype)

/-- The `basic_land_name` mapping (source lines 565-572). -/
def basicLandName : Char → String
  | 'W' => "Plains"
  | 'U' => "Island"
  | 'B' => "Swamp"
  | 'R' => "Mountain"
  | 'G' => "Forest"
  | _ => "Wastes"

/-- Python `int()` on the non-negative floats that arise in the land split. -/
def ratFloorNat (q : ℚ) : ℕ :=
  (⌊q⌋).toNat

/-- The count `mana_symbols[c]`: literal occurrences of the color character in the
selected cards' cost strings (source lines 516-522). -/
def symCount (selected : List SCard) (c : Char) : ℕ :=
  (selected.map (fun sc => countChar c sc.card.mana_cost)).sum

/-- The proportional-split loop of the land builder (source lines 540-545):
each primary color gets `int(lands_needed * its symbol share)` basic lands. -/
def landsBySymbols (needed : ℕ) (sym : Char → ℕ) (total : ℕ) : List Char → List String
  | [] => []
  | c :: cs =>
    List.replicate (ratFloorNat ((needed : ℚ) * (sym c : ℚ) / (total : ℚ))) (basicLandName c)
      ++ landsBySymbols needed sym total cs

/-- The even-split loop of the zero-symbol failsafe (source lines 534-538). -/
def landsEven (per : ℕ) : List Char → List String
  | [] => []
  | c :: cs => List.replicate per (basicLandName c) ++ landsEven per cs

/-- Python `max(xs, key=f)`: the first maximal element. -/
def pyMaxBy (f : Char → ℕ) : List Char → Char
  | [] => 'W'
  | x :: xs => xs.foldl (fun b c => if f b < f c then c else b) x

/-- Python `min(xs, key=f)`: the first minimal element. -/
def pyMinBy (f : Char → ℕ) : List Char → Char
  | [] => 'W'
  | x :: xs => xs.foldl (fun b c => if f c < f b then c else b) x

/-- The land-removal loop (source lines 553-559), one `erase` per excess
land.  The constructed land list never exceeds `lands_needed` (proved
below), so this loop body never actually runs; Python's version would spin
forever if the name were absent, but that branch is unreachable. -/
def shrinkLands : ℕ → String → List String → List String
  | 0, _, l => l
  | n + 1, nm, l => shrinkLands n nm (l.erase nm)

/-- The 17-land mana base (source lines 511-559).  The grow loop (lines
548-551) appends one land of the first highest-symbol color per iteration;
the symbol counts never change inside the loop, so it equals appending the
whole deficit as replicas of that one name. -/
def buildLands (selected : List SCard) (prim : List Char) : List String :=
  let needed := 40 - selected.length
  let sym := symCount selected
  let total := (prim.map sym).sum
  let base :=
    if total = 0 then
      if prim.length = 1 then List.replicate needed (basicLandName (prim.headD 'W'))
      else landsEven (needed / prim.length) prim
    else landsBySymbols needed sym total prim
  let grown := base ++ List.replicate (needed - base.length) (basicLandName (pyMaxBy sym prim))
  shrinkLands (grown.length - needed) (basicLandName (pyMinBy sym prim)) grown

/-- One entry of a finished deck: either a selected pool card (with its
per-build score) or one of the appended basic-land dicts, which carry only
a name and the type line `"Basic Land"` (source lines 531-551, 561-563). -/
inductive DeckEntry
  | spell (sc : SCard)
  | land (name : String)
deriving DecidableEq, Repr

/-- The function `build_deck` (source lines 333-563).  The one way the Python function
can fail is a `KeyError` on `mana_symbols[color]` when a `"MONO_"` code
ends in a character outside WUBRG; that failure is modelled as `none`.
Every other input reaches the final `return`. -/
def buildDeck (pool : List Card) (archetype : String) : Option (List DeckEntry) :=
  if (primaryOf pool archetype).all (wubrgChars.contains ·) then
    some ((selectedOf pool archetype).map DeckEntry.spell
      ++ (buildLands (selectedOf pool archetype) (primaryOf pool archetype)).map DeckEntry.land)
  else none

/-- The basic-land names `analyze_drafts` skips (source line 629). -/
def basicNames : List String :=
  ["Plains", "Island", "Swamp", "Mountain", "Forest", "Wastes"]

/-- The `card["name"]` of a deck entry. -/
def entryName : DeckEntry → String
  | .spell sc => sc.card.name
  | .land n => n

/-- The `card["type_line"]` of a deck entry; appended basic lands carry the
literal type line `"Basic Land"` (source lines 531-551). -/
def entryTypeLine : DeckEntry → String
  | .spell sc => sc.card.type_line
  | .land _ => "Basic Land"

/-- An entry whose type line does not contain `"Land"`. -/
def entryNonLand (e : DeckEntry) : Bool :=
  !(strContains "Land" (entryTypeLine e))

/-- An entry bearing one of the six basic-land names. -/
def entryIsBasicName (e : DeckEntry) : Bool :=
  basicNames.contains (entryName e)

/-- An entry whose type line contains `"Creature"`. -/
def entryCreature (e : DeckEntry) : Bool :=
  strContains "Creature" (entryTypeLine e)

/-- One flattened row of `analyze_drafts` (source lines 626-653), restricted
to the columns its card-name, rarity and mana-curve statistics read.  A
missing dict key (a basic-land dict has no `cmc` or `rarity`) is `none`;
pandas drops such cells from `groupby` and `value_counts`. -/
structure FlatRec where
  name : String
  cmc : Option ℚ
  rarity : Option String
deriving DecidableEq, Repr

/-- The record built for one deck entry, or `none` for a skipped basic land
(source lines 628-630). -/
def entryRecord : DeckEntry → Option FlatRec
  | .spell sc =>
    if basicNames.contains sc.card.name then none
    else some ⟨sc.card.name, some sc.card.cmc, some sc.card.rarity⟩
  | .land n =>
    if basicNames.contains n then none
    else some ⟨n, none, none⟩

/-- The flattened `card_records` of a batch of decks (source lines 624-653). -/
def flattenDecks (decks : List (List DeckEntry)) : List FlatRec :=
  (decks.map (fun d => d.filterMap entryRecord)).flatten

/-- The distinct values of a list in order of first appearance. -/
def uniqFirst [DecidableEq α] : List α → List α
  | [] => []
  | x :: xs => x :: uniqFirst (xs.filter (· ≠ x))
termination_by l => l.length
decreasing_by
  simp only [List.length_cons]
  exact Nat.lt_succ_of_le (List.length_filter_le _ _)

/-- The statistic `pandas.Series.value_counts()`: distinct values with their
multiplicities, sorted by descending count. -/
def valueCounts [DecidableEq α] (l : List α) : List (α × ℕ) :=
  pySortBy (fun a b => decide (b.2 ≤ a.2)) ((uniqFirst l).map (fun k => (k, l.count k)))

/-- The metric `analysis["most_common_cards"]` (source lines 662-663). -/
def mostCommonCards (recs : List FlatRec) : List (String × ℕ) :=
  (valueCounts (recs.map FlatRec.name)).take 20

/-- The metric `analysis["rarity_distribution"]` (source lines 681-683). -/
def rarityDistribution (recs : List FlatRec) : List (String × ℕ) :=
  valueCounts (recs.filterMap FlatRec.rarity)

/-- The metric `analysis["mana_curve"]` (source lines 676-678): `groupby("cmc").size()`
with the keys in ascending order. -/
def manaCurve (recs : List FlatRec) : List (ℚ × ℕ) :=
  let vs := recs.filterMap FlatRec.cmc
  (pySortBy (fun a b => decide (a ≤ b)) (uniqFirst vs)).map (fun v => (v, vs.count v))

/-- The tier `[card for card in self.cards_in_set if card["rarity"] == "common"]`. -/
def commonsOf (catalog : List Card) : List Card :=
  catalog.filter (fun c => c.rarity == "common")

/-- The uncommon tier of the catalog (source line 318). -/
def uncommonsOf (catalog : List Card) : List Card :=
  catalog.filter (fun c => c.rarity == "uncommon")

/-- The rare-or-mythic tier of the catalog (source line 319). -/
def raresOf (catalog : List Card) : List Card :=
  catalog.filter (fun c => c.rarity == "rare" || c.rarity == "mythic")

/-- The draw `random.sample(l, n)` with the randomness made explicit: each step takes
the next stream value modulo the remaining length as the picked index.  Any
without-replacement draw is reachable by a suitable stream. -/
def sampleGo : ℕ → List Card → List ℕ → List Card × List ℕ
  | 0, _, st => ([], st)
  | n + 1, l, st =>
    let i := st.headD 0 % l.length
    let x := l.getD i default
    let (rest, st') := sampleGo n (l.eraseIdx i) st.tail
    (x :: rest, st')

/-- The draw `random.sample(l, n)`: fails (ValueError) when the population is
smaller than the sample size. -/
def sample (l : List Card) (n : ℕ) (st : List ℕ) : Option (List Card × List ℕ) :=
  if n ≤ l.length then some (sampleGo n l st) else none

/-- The draw `random.choice(catalog)` (source line 326), with explicit randomness. -/
def choiceCard (catalog : List Card) (st : List ℕ) : Option (Card × List ℕ) :=
  if catalog.isEmpty then none
  else some (catalog.getD (st.headD 0 % catalog.length) default, st.tail)

/-- One booster pack (source lines 317-327): 10 commons, 3 uncommons, 1
rare-or-mythic, then one card from the whole catalog in the land slot. -/
def makePack (catalog : List Card) (st : List ℕ) : Option (List Card × List ℕ) :=
  (sample (commonsOf catalog) 10 st).bind fun cs =>
    (sample (uncommonsOf catalog) 3 cs.2).bind fun us =>
      (sample (raresOf catalog) 1 us.2).bind fun rs =>
        (choiceCard catalog rs.2).map fun x =>
          (cs.1 ++ us.1 ++ rs.1 ++ [x.1], x.2)

/-- The six-pack loop of `generate_sealed_pool` (source lines 316-329). -/
def makePacks : ℕ → List Card → List ℕ → Option (List Card)
  | 0, _, _ => some []
  | k + 1, catalog, st =>
    (makePack catalog st).bind fun p => (makePacks k catalog p.2).map (p.1 ++ ·)

/-- The function `generate_sealed_pool` (source lines 307-331): raises on an empty
catalog, then builds six packs; a pack raises when a rarity tier is smaller
than its slot count.  Both failures are modelled as `none`. -/
def generateSealedPool (catalog : List Card) (st : List ℕ) : Option (List Card) :=
  if catalog.isEmpty then none else makePacks 6 catalog st

/-- What one pack of `generate_sealed_pool` looks like: 15 cards, the first
ten a without-replacement draw from the commons (a sub-multiset of the
common tier), then three uncommons, one rare-or-mythic, and one card of the
whole catalog. -/
def IsPack (catalog : List Card) (pack : List Card) : Prop :=
  pack.length = 15
    ∧ List.Subperm (pack.take 10) (commonsOf catalog)
    ∧ List.Subperm ((pack.drop 10).take 3) (uncommonsOf catalog)
    ∧ List.Subperm ((pack.drop 13).take 1) (raresOf catalog)
    ∧ ∀ x ∈ pack.drop 14, x ∈ catalog

/-- The distribution-validation step of `simulate_drafts` (source lines
587-592): weights are renormalized only when their sum deviates from 1 by
more than 0.01. -/
def normalizeDistribution (d : List (String × ℚ)) : List (String × ℚ) :=
  let total := (d.map (·.2)).sum
  if 99/100 ≤ total ∧ total ≤ 101/100 then d
  else d.map (fun p => (p.1, p.2 / total))

/-- The cumulative-weight walk of `simulate_drafts` (source lines 599-607):
the first entry whose cumulative weight reaches the draw wins; when the walk
falls off the end, `current_archetype` keeps the fixed `archetype` argument. -/
def pickFromCumulative : List (String × ℚ) → ℚ → ℚ → String → String
  | [], _, _, fixed => fixed
  | (a, p) :: rest, r, cum, fixed =>
    if r ≤ cum + p then a else pickFromCumulative rest r (cum + p) fixed

/-- The archetype selected for one run of `simulate_drafts` when a
distribution is supplied, as a function of the uniform draw `r`. -/
def selectRunArchetype (dist : List (String × ℚ)) (fixed : String) (r : ℚ) : String :=
  pickFromCumulative (normalizeDistribution dist) r 0 fixed

/-- A card record as loaded into `self.card_data` (source lines 291-301):
the fields `build_deck` extracts plus the `color_identity` it ignores, and a
slot for a score a caller might have cached on the record — the builder
copies the seven fields it needs into fresh dicts and never reads or writes
anything else. -/
structure RawCard where
  name : String
  mana_cost : String
  type_line : String
  oracle_text : String
  colors : List MColor
  color_identity : List MColor
  rarity : String
  cmc : ℚ
  cachedScore : Option ℚ
deriving DecidableEq, Repr

/-- The `pool_data` extraction of `build_deck` (source lines 348-356). -/
def extractCard (rc : RawCard) : Card :=
  ⟨rc.name, rc.colors, rc.cmc, rc.type_line, rc.rarity, rc.oracle_text, rc.mana_cost⟩

/-- The function `build_deck` on unextracted catalog records: the extraction into fresh
per-build dicts is its first statement. -/
def buildDeckRaw (pool : List RawCard) (archetype : String) : Option (List DeckEntry) :=
  buildDeck (pool.map extractCard) archetype

/-- The card score exactly as the specification narrates it: one sum of the
named bonuses, multiplied by the archetype weight when a profile exists. -/
def scoreSpecRef (prim : List Char) (prof : Option Profile) (card : Card) : ℚ :=
  let base : ℚ :=
    (if card.colorChars.any (prim.contains ·) then 5 else 0)
      + (if pySetEqChars card.colorChars prim then 3 else 0)
      + (if card.colorChars.isEmpty && !card.isLand then 3 else 0)
      + rarityBonus card.rarity
      + (if card.cmc ≤ 3 then 2 else if card.cmc ≤ 5 then 1 else 0)
      + (if card.isCreature then 1 else 0)
      + (if strContains "Removal" card.type_line
            || removalTerms.any (fun t => strContains t (lowerStr card.oracle_text)) then 2
         else 0)
  match prof with
  | none => base
  | some p =>
    (base + ((p.keywords.filter (fun k => strContains k (lowerStr card.oracle_text))).length : ℚ))
      * (if card.isCreature then p.creature_weight else p.noncreature_weight)



/-! ### Concrete instances used by counterexamples and witnesses -/

/-- A colorless pool card whose type line contains `"Land"` but whose name
is not a basic-land name. -/
def exPoolLand : Card :=
  ⟨"Evolving Wilds", [], 0, "Land", "common", "", ""⟩

/-- A pool card that is simultaneously a land and a creature. -/
def exLandCreature : Card :=
  ⟨"Dryad Arbor", [], 0, "Land Creature", "common", "", ""⟩

/-- A plain white one-drop creature. -/
def exWCreature : Card :=
  ⟨"Wc", [MColor.W], 1, "Creature", "common", "", "{W}"⟩

/-- The red common of the analysis smoke test: mana value 2, colors {R}. -/
def exRedCommon : Card :=
  ⟨"X", [MColor.R], 2, "Creature", "common", "", "{1}{R}"⟩

/-- A catalog with exactly one pack worth of each rarity tier. -/
def exCatalog : List Card :=
  List.replicate 10 (⟨"cc", [], 0, "T", "common", "", ""⟩ : Card)
    ++ List.replicate 3 (⟨"cu", [], 0, "T", "uncommon", "", ""⟩ : Card)
    ++ [⟨"cr", [], 0, "T", "rare", "", ""⟩]

/-- A distribution whose weights sum to 0.99: inside the tolerance window,
so `simulate_drafts` does not renormalize it. -/
def exDistribution : List (String × ℚ) :=
  [("WB", 99/100)]

/-! ### Helper lemmas -/

theorem pyInsertBy_perm (le : α → α → Bool) (x : α) (l : List α) :
    List.Perm (pyInsertBy le x l) (x :: l) := by
  induction l with
  | nil => simp [pyInsertBy]
  | cons y ys ih =>
    simp only [pyInsertBy]
    split
    · exact List.Perm.refl _
    · exact (ih.cons y).trans (List.Perm.swap x y ys)

theorem pySortBy_perm (le : α → α → Bool) (l : List α) :
    List.Perm (pySortBy le l) l := by
  induction l with
  | nil => simp [pySortBy]
  | cons x xs ih =>
    exact (pyInsertBy_perm le x (pySortBy le xs)).trans (ih.cons x)

theorem truncate23_length_le (l : List SCard) :
    (truncate23 l).length ≤ 23 := by
  unfold truncate23
  split
  · simp [List.length_take]
  · omega

theorem selectSpells_length_le (l : List SCard) (m : ℕ) :
    (selectSpells l m).length ≤ 23 := by
  unfold selectSpells
  exact truncate23_length_le _

theorem selectedOf_length_le (pool : List Card) (archetype : String) :
    (selectedOf pool archetype).length ≤ 23 :=
  selectSpells_length_le _ _

theorem landsEven_length (per : ℕ) (cs : List Char) :
    (landsEven per cs).length = cs.length * per := by
  induction cs with
  | nil => simp [landsEven]
  | cons c cs ih => simp [landsEven, ih, Nat.succ_mul, Nat.add_comm]

theorem landsBySymbols_length (n : ℕ) (sym : Char → ℕ) (t : ℕ) (cs : List Char) :
    (landsBySymbols n sym t cs).length
      = (cs.map (fun c => ratFloorNat ((n : ℚ) * (sym c : ℚ) / (t : ℚ)))).sum := by
  induction cs with
  | nil => simp [landsBySymbols]
  | cons c cs ih => simp [landsBySymbols, ih]

theorem ratFloorNat_mono {a b : ℚ} (h : a ≤ b) : ratFloorNat a ≤ ratFloorNat b :=
  Int.toNat_le_toNat (Int.floor_le_floor h)

theorem ratFloorNat_add_le {a b : ℚ} (ha : 0 ≤ a) (hb : 0 ≤ b) :
    ratFloorNat a + ratFloorNat b ≤ ratFloorNat (a + b) := by
  unfold ratFloorNat
  have h3 : ⌊a⌋ + ⌊b⌋ ≤ ⌊a + b⌋ := by
    apply Int.le_floor.mpr
    push_cast
    exact add_le_add (Int.floor_le a) (Int.floor_le b)
  have h1 : (0 : ℤ) ≤ ⌊a⌋ := Int.floor_nonneg.mpr ha
  have h2 : (0 : ℤ) ≤ ⌊b⌋ := Int.floor_nonneg.mpr hb
  omega

theorem ratFloorNat_natCast (n : ℕ) : ratFloorNat (n : ℚ) = n := by
  unfold ratFloorNat
  rw [Int.floor_natCast]
  exact Int.toNat_natCast n

theorem sum_ratFloorNat_le (qs : List ℚ) (h : ∀ q ∈ qs, 0 ≤ q) :
    (qs.map ratFloorNat).sum ≤ ratFloorNat qs.sum := by
  induction qs with
  | nil => simp [ratFloorNat]
  | cons q qs ih =>
    simp only [List.map_cons, List.sum_cons]
    have hq : 0 ≤ q := h q (by simp)
    have hqs : 0 ≤ qs.sum := List.sum_nonneg (fun x hx => h x (by simp [hx]))
    calc ratFloorNat q + (qs.map ratFloorNat).sum
        ≤ ratFloorNat q + ratFloorNat qs.sum :=
          Nat.add_le_add_left (ih (fun x hx => h x (by simp [hx]))) _
      _ ≤ ratFloorNat (q + qs.sum) := ratFloorNat_add_le hq hqs

theorem list_sum_map_mul (a : ℚ) (f : Char → ℚ) (cs : List Char) :
    (cs.map (fun c => a * f c)).sum = a * (cs.map f).sum := by
  induction cs with
  | nil => simp
  | cons c cs ih => simp [ih, mul_add]

theorem list_sum_natCast (f : Char → ℕ) (cs : List Char) :
    (cs.map (fun c => ((f c : ℕ) : ℚ))).sum = (((cs.map f).sum : ℕ) : ℚ) := by
  induction cs with
  | nil => simp
  | cons c cs ih => simp [ih]

theorem landsBySymbols_length_le (n : ℕ) (sym : Char → ℕ) (cs : List Char)
    (ht : (cs.map sym).sum ≠ 0) :
    (landsBySymbols n sym ((cs.map sym).sum) cs).length ≤ n := by
  rw [landsBySymbols_length]
  set t := (cs.map sym).sum with hts
  have htq : (0 : ℚ) < (t : ℚ) := by
    exact_mod_cast Nat.pos_of_ne_zero ht
  have hsum : (cs.map (fun c => ((n : ℚ) * (sym c : ℚ) / (t : ℚ)))).sum = (n : ℚ) := by
    have hfun : (fun c => ((n : ℚ) * (sym c : ℚ) / (t : ℚ)))
        = (fun c => ((n : ℚ) / (t : ℚ)) * ((sym c : ℕ) : ℚ)) := by
      funext c
      ring
    rw [hfun, list_sum_map_mul, list_sum_natCast, ← hts]
    field_simp
  have hmap : (cs.map (fun c => ratFloorNat ((n : ℚ) * (sym c : ℚ) / (t : ℚ))))
      = ((cs.map (fun c => ((n : ℚ) * (sym c : ℚ) / (t : ℚ)))).map ratFloorNat) := by
    rw [List.map_map]
    rfl
  rw [hmap]
  have hnn : ∀ q ∈ (cs.map (fun c => ((n : ℚ) * (sym c : ℚ) / (t : ℚ)))), 0 ≤ q := by
    intro q hq
    obtain ⟨c, _, rfl⟩ := List.mem_map.mp hq
    positivity
  calc ((cs.map (fun c => ((n : ℚ) * (sym c : ℚ) / (t : ℚ)))).map ratFloorNat).sum
      ≤ ratFloorNat ((cs.map (fun c => ((n : ℚ) * (sym c : ℚ) / (t : ℚ)))).sum) :=
        sum_ratFloorNat_le _ hnn
    _ = n := by rw [hsum, ratFloorNat_natCast]

theorem grow_shrink_length (base : List String) (n : ℕ) (pad nm : String)
    (h : base.length ≤ n) :
    (shrinkLands ((base ++ List.replicate (n - base.length) pad).length - n) nm
      (base ++ List.replicate (n - base.length) pad)).length = n := by
  have hlen : (base ++ List.replicate (n - base.length) pad).length = n := by
    simp only [List.length_append, List.length_replicate]
    omega
  rw [hlen, Nat.sub_self]
  exact hlen

theorem buildLands_length (sel : List SCard) (prim : List Char) :
    (buildLands sel prim).length = 40 - sel.length := by
  unfold buildLands
  apply grow_shrink_length
  split
  · split
    · simp
    · rw [landsEven_length]
      calc prim.length * ((40 - sel.length) / prim.length)
          = ((40 - sel.length) / prim.length) * prim.length := Nat.mul_comm _ _
        _ ≤ 40 - sel.length := Nat.div_mul_le_self _ _
  · exact landsBySymbols_length_le _ _ _ (by assumption)

theorem buildDeck_some_parts (pool : List Card) (archetype : String) (deck : List DeckEntry)
    (h : buildDeck pool archetype = some deck) :
    deck = (selectedOf pool archetype).map DeckEntry.spell
      ++ (buildLands (selectedOf pool archetype) (primaryOf pool archetype)).map DeckEntry.land := by
  unfold buildDeck at h
  split at h
  · exact (Option.some.injEq _ _ ▸ h).symm
  · cases h

theorem buildDeck_length (pool : List Card) (archetype : String) (deck : List DeckEntry)
    (h : buildDeck pool archetype = some deck) : deck.length = 40 := by
  rw [buildDeck_some_parts pool archetype deck h]
  have h1 := selectedOf_length_le pool archetype
  simp only [List.length_append, List.length_map, buildLands_length]
  omega

theorem truncate23_subset {x : SCard} {l : List SCard} (h : x ∈ truncate23 l) : x ∈ l := by
  unfold truncate23 at h
  split at h
  · exact List.mem_of_mem_take h
  · exact h

theorem adjustCreatures_subset {x : SCard} {l : List SCard} {m : ℕ}
    (h : x ∈ adjustCreatures l m) : x ∈ l := by
  unfold adjustCreatures at h
  split at h
  · rcases List.mem_append.mp h with h2 | h2
    · exact List.mem_of_mem_take (List.diff_subset _ _ h2)
    · exact List.mem_of_mem_drop
        (List.mem_of_mem_filter (List.mem_of_mem_take h2))
  · exact List.mem_of_mem_take h

theorem selectSpells_subset {x : SCard} {l : List SCard} {m : ℕ}
    (h : x ∈ selectSpells l m) : x ∈ l :=
  adjustCreatures_subset (truncate23_subset h)

theorem playablePool_card_mem {x : SCard} {pool : List Card} {archetype : String}
    (h : x ∈ playablePool pool archetype) : x.card ∈ pool := by
  unfold playablePool at h
  have h1 := List.mem_of_mem_filter h
  obtain ⟨c, hc, rfl⟩ := List.mem_map.mp h1
  exact hc

theorem selectedOf_card_mem {x : SCard} {pool : List Card} {archetype : String}
    (h : x ∈ selectedOf pool archetype) : x.card ∈ pool := by
  have h1 := selectSpells_subset h
  unfold sortedPlayablePool at h1
  exact playablePool_card_mem ((pySortBy_perm _ _).mem_iff.mp h1)

theorem shrinkLands_subset (k : ℕ) (nm : String) (l : List String) :
    shrinkLands k nm l ⊆ l := by
  induction k generalizing l with
  | zero => exact fun _ h => h
  | succ k ih => exact fun x hx => List.erase_subset _ _ (ih (l.erase nm) hx)

theorem landsEven_names {s : String} (per : ℕ) (cs : List Char)
    (h : s ∈ landsEven per cs) : ∃ c, s = basicLandName c := by
  induction cs with
  | nil => cases h
  | cons c cs ih =>
    rcases List.mem_append.mp h with h1 | h1
    · exact ⟨c, (List.eq_of_mem_replicate h1)⟩
    · exact ih h1

theorem landsBySymbols_names {s : String} (n : ℕ) (sym : Char → ℕ) (t : ℕ) (cs : List Char)
    (h : s ∈ landsBySymbols n sym t cs) : ∃ c, s = basicLandName c := by
  induction cs with
  | nil => cases h
  | cons c cs ih =>
    rcases List.mem_append.mp h with h1 | h1
    · exact ⟨c, (List.eq_of_mem_replicate h1)⟩
    · exact ih h1

theorem buildLands_names {s : String} (sel : List SCard) (prim : List Char)
    (h : s ∈ buildLands sel prim) : ∃ c, s = basicLandName c := by
  unfold buildLands at h
  have h1 := shrinkLands_subset _ _ _ h
  rcases List.mem_append.mp h1 with h2 | h2
  · split at h2
    · split at h2
      · exact ⟨_, List.eq_of_mem_replicate h2⟩
      · exact landsEven_names _ _ h2
    · exact landsBySymbols_names _ _ _ _ h2
  · exact ⟨_, List.eq_of_mem_replicate h2⟩

theorem basicLandName_mem_basicNames (c : Char) :
    basicNames.contains (basicLandName c) = true := by
  unfold basicLandName
  split <;> decide

/-! ### Claim theorems -/

/-- Claim C2 counterexample: the claim says `build_deck` fails with
`EmptyPool` whenever the pool is empty, but on the empty pool the function
returns a full 40-card deck consisting entirely of basic lands — the source
contains no emptiness check and no `EmptyPool` or `DegenerateArchetype`
error at all. -/
theorem c2_counterexample :
    (buildDeck [] "auto").map List.length = some 40
      ∧ (buildDeck [] "auto").map (fun d => d.countP entryIsBasicName) = some 40 :=
  ⟨by decide, by decide⟩

/-- Claim C2 (amended): `build_deck` never fails on a non-degenerate
archetype and never surfaces a partial result: whenever it returns a deck,
that deck has exactly 40 entries, and on the empty pool it returns a deck
(of basic lands) rather than raising an `EmptyPool` error — no
`EmptyPool`/`DegenerateArchetype` errors exist in the code. -/
theorem c2_no_partial_deck :
    (∀ (pool : List Card) (archetype : String) (deck : List DeckEntry),
        buildDeck pool archetype = some deck → deck.length = 40)
      ∧ buildDeck [] "auto" ≠ none :=
  ⟨buildDeck_length, by decide⟩

/-- The deck `build_deck` produces from the empty pool. -/
def exEmptyDeck : List DeckEntry :=
  (buildDeck [] "auto").getD []

set_option maxHeartbeats 2000000 in
/-- Witness for C2: on the empty pool and archetype `"auto"` the build
returns a deck, and the amended theorem evaluates its length to 40. -/
theorem c2_no_partial_deck_witness :
    exEmptyDeck.length = 40 :=
  c2_no_partial_deck.1 [] "auto" exEmptyDeck (by decide)

set_option maxHeartbeats 4000000 in
/-- Claim C3: the score `build_deck` assigns is exactly the reference
function of the specification — the sum of the color-affinity, exact-match,
colorless, rarity, cost, creature and removal bonuses plus one per matched
profile keyword, multiplied by the profile's creature or noncreature weight
when a profile exists.  Both sides are pure functions of
(card, primary colors, profile), so identical inputs give identical
scores. -/
theorem c3_score_pure_reference (prim : List Char) (prof : Option Profile) (card : Card) :
    scoreCard prim prof card = scoreSpecRef prim prof card := by
  cases prof <;>
    · simp only [scoreCard, scoreSpecRef]
      split_ifs <;> ring

/-- Claim C9: `build_deck` reads only the seven extracted fields of each
catalog record; overwriting any cached score on the records (and even the
`color_identity` field the extraction drops) leaves every build unchanged,
so scores live only on the fresh per-build copies and the catalog records
are never consulted for, or polluted with, a score. -/
theorem c9_catalog_frame (pool : List RawCard) (archetype : String)
    (f : RawCard → Option ℚ) (g : RawCard → List MColor) :
    buildDeckRaw (pool.map (fun c =>
        RawCard.mk c.name c.mana_cost c.type_line c.oracle_text c.colors (g c) c.rarity c.cmc (f c)))
      archetype = buildDeckRaw pool archetype := by
  unfold buildDeckRaw
  rw [List.map_map]
  rfl

theorem pickFromCumulative_mem (l : List (String × ℚ)) (r cum : ℚ) (fixed : String) :
    pickFromCumulative l r cum fixed = fixed
      ∨ pickFromCumulative l r cum fixed ∈ l.map Prod.fst := by
  induction l generalizing cum with
  | nil => exact Or.inl rfl
  | cons hd tl ih =>
    obtain ⟨a, p⟩ := hd
    simp only [pickFromCumulative]
    split
    · exact Or.inr (by simp)
    · rcases ih (cum + p) with h | h
      · exact Or.inl h
      · exact Or.inr (by simp [h])

theorem normalizeDistribution_keys (d : List (String × ℚ)) :
    (normalizeDistribution d).map Prod.fst = d.map Prod.fst := by
  unfold normalizeDistribution
  dsimp only
  split
  · rfl
  · rw [List.map_map]
    rfl

/-- Claim C10: with an `archetype_distribution`, every run's archetype is a
key of the distribution or the fixed `archetype` argument; and concretely,
for the distribution `{"WB": 0.99}` — whose weights sum to 0.99 ∈ [0.99, 1),
so normalization is skipped — the draw r = 0.995 exceeds the cumulative
total, and the run silently keeps the fixed argument `"auto"`, which is not
a key of the distribution. -/
theorem c10_distribution_fallback :
    (∀ (dist : List (String × ℚ)) (fixed : String) (r : ℚ),
        selectRunArchetype dist fixed r = fixed
          ∨ selectRunArchetype dist fixed r ∈ dist.map Prod.fst)
      ∧ ((99 : ℚ)/100 ≤ (exDistribution.map Prod.snd).sum
          ∧ (exDistribution.map Prod.snd).sum < 1
          ∧ normalizeDistribution exDistribution = exDistribution
          ∧ (exDistribution.map Prod.snd).sum < (199 : ℚ)/200
          ∧ selectRunArchetype exDistribution "auto" (199/200) = "auto"
          ∧ "auto" ∉ exDistribution.map Prod.fst) := by
  constructor
  · intro dist fixed r
    rcases pickFromCumulative_mem (normalizeDistribution dist) r 0 fixed with h | h
    · exact Or.inl h
    · exact Or.inr (normalizeDistribution_keys dist ▸ h)
  · refine ⟨by with_unfolding_all decide, by with_unfolding_all decide,
      by with_unfolding_all decide, by with_unfolding_all decide,
      by with_unfolding_all decide, by with_unfolding_all decide⟩

/-- Claim C6 counterexample: `"UW"` is a two-letter code over {W,U,B,R,G},
but `build_deck` recognizes only ten specific two-letter codes; `"UW"` is
not one of them and falls back to the `"auto"` resolution, which on the
empty pool yields `['W', 'U']` — not the literal letters `['U', 'W']`. -/
theorem c6_counterexample :
    "UW".toList.length = 2
      ∧ "UW".toList.all (wubrgChars.contains ·) = true
      ∧ "UW" ∉ twoColorCodes
      ∧ resolvePrimaryColors [] "UW" = ['W', 'U']
      ∧ resolvePrimaryColors [] "UW" ≠ "UW".toList :=
  ⟨rfl, rfl, by decide, by decide, by decide⟩

/-- Claim C6 (amended): exactly the ten listed two-letter codes and the ten
listed three-letter codes resolve to their literal letters in order;
`"MONO_<X>"` resolves to its final character; `"5C"` resolves to all five
colors; and every other code — `"auto"` itself, and any unrecognized code
such as the unlisted letter combination `"UW"` — resolves to the `"auto"`
computation (the two single colors with the highest pool counts). -/
theorem c6_archetype_resolution (pool : List Card) (archetype : String) :
    (archetype ∈ twoColorCodes → resolvePrimaryColors pool archetype = archetype.toList)
      ∧ (archetype ∈ threeColorCodes → resolvePrimaryColors pool archetype = archetype.toList)
      ∧ (isMonoCode archetype = true →
          resolvePrimaryColors pool archetype = [archetype.toList.getLastD 'A'])
      ∧ (archetype = "5C" → resolvePrimaryColors pool archetype = wubrgChars)
      ∧ (archetype ∉ twoColorCodes → archetype ∉ threeColorCodes →
          isMonoCode archetype = false → archetype ≠ "5C" →
          resolvePrimaryColors pool archetype = autoColors pool) := by
  refine ⟨?_, ?_, ?_, ?_, ?_⟩
  · intro h
    fin_cases h <;> rfl
  · intro h
    fin_cases h <;> rfl
  · intro h
    have h1 : archetype ≠ "auto" := by
      intro e
      rw [e] at h
      exact absurd h (by decide)
    have h2 : archetype ∉ twoColorCodes := by
      intro hm
      fin_cases hm <;> exact absurd h (by decide)
    have h3 : archetype ∉ threeColorCodes := by
      intro hm
      fin_cases hm <;> exact absurd h (by decide)
    unfold resolvePrimaryColors
    rw [if_neg h1, if_neg h2, if_neg h3, if_pos h]
  · intro h
    rw [h]
    rfl
  · intro h1 h2 h3 h4
    by_cases h0 : archetype = "auto"
    · unfold resolvePrimaryColors
      rw [if_pos h0]
    · unfold resolvePrimaryColors
      rw [if_neg h0, if_neg h1, if_neg h2, if_neg (by simp [h3]), if_neg h4]

/-- Witness for C6: the listed code `"WB"` resolves to its literal letters
on a concrete pool. -/
theorem c6_archetype_resolution_witness :
    resolvePrimaryColors [] "WB" = "WB".toList :=
  (c6_archetype_resolution [] "WB").1 (by decide)

theorem countP_eq_length_of {p : α → Bool} {l : List α} (h : ∀ a ∈ l, p a = true) :
    l.countP p = l.length := by
  induction l with
  | nil => simp
  | cons x xs ih =>
    rw [List.countP_cons, ih (fun a ha => h a (List.mem_cons_of_mem x ha)),
      h x (List.mem_cons_self x xs)]
    simp [Nat.add_comm]

theorem countP_eq_zero_of {p : α → Bool} {l : List α} (h : ∀ a ∈ l, p a = false) :
    l.countP p = 0 := by
  induction l with
  | nil => simp
  | cons x xs ih =>
    rw [List.countP_cons, ih (fun a ha => h a (List.mem_cons_of_mem x ha)),
      h x (List.mem_cons_self x xs)]
    simp

/-- Claim C1 counterexample: the claim says the basic-land entries always
number exactly 40 minus the non-land entries, but a pool land (here a card
typed `"Land"` and named `"Evolving Wilds"`) passes the playability filter,
occupies a selected slot, and the deck ends with 0 non-land entries yet only
39 basic-land entries: 39 ≠ 40 − 0. -/
theorem c1_counterexample :
    (buildDeck [exPoolLand] "auto").map
        (fun d => (d.length, d.countP entryNonLand, d.countP entryIsBasicName))
      = some (40, 0, 39)
      ∧ (39 : ℕ) ≠ 40 - 0 :=
  ⟨by decide, by decide⟩

/-- Claim C1 (amended): for every pool none of whose cards is land-typed or
named after a basic land, and every archetype for which `build_deck`
returns a deck, the deck has exactly 40 entries, its non-land entries
number at most 23, and its basic-land entries number exactly 40 minus the
number of non-land entries. -/
theorem c1_deck_shape (pool : List Card) (archetype : String) (deck : List DeckEntry)
    (hclean : ∀ c ∈ pool, c.isLand = false ∧ c.name ∉ basicNames)
    (hbuild : buildDeck pool archetype = some deck) :
    deck.length = 40 ∧ deck.countP entryNonLand ≤ 23
      ∧ deck.countP entryIsBasicName = 40 - deck.countP entryNonLand := by
  have hlen := buildDeck_length pool archetype deck hbuild
  have hparts := buildDeck_some_parts pool archetype deck hbuild
  have hsel_le := selectedOf_length_le pool archetype
  have hlands := buildLands_length (selectedOf pool archetype) (primaryOf pool archetype)
  have hnl_spell : ((selectedOf pool archetype).map DeckEntry.spell).countP entryNonLand
      = (selectedOf pool archetype).length := by
    rw [List.countP_map]
    apply countP_eq_length_of
    intro sc hsc
    have hmem := selectedOf_card_mem hsc
    have := (hclean sc.card hmem).1
    simp only [Function.comp, entryNonLand, entryTypeLine]
    rw [show strContains "Land" sc.card.type_line = sc.card.isLand from rfl, this]
    rfl
  have hnl_land : ((buildLands (selectedOf pool archetype) (primaryOf pool archetype)).map
      DeckEntry.land).countP entryNonLand = 0 := by
    rw [List.countP_map]
    exact countP_eq_zero_of (fun a _ => rfl)
  have hb_spell : ((selectedOf pool archetype).map DeckEntry.spell).countP entryIsBasicName
      = 0 := by
    rw [List.countP_map]
    apply countP_eq_zero_of
    intro sc hsc
    have hmem := selectedOf_card_mem hsc
    have hnm := (hclean sc.card hmem).2
    simp only [Function.comp, entryIsBasicName, entryName]
    simpa using hnm
  have hb_land : ((buildLands (selectedOf pool archetype) (primaryOf pool archetype)).map
      DeckEntry.land).countP entryIsBasicName
      = (buildLands (selectedOf pool archetype) (primaryOf pool archetype)).length := by
    rw [List.countP_map]
    apply countP_eq_length_of
    intro nm hnm
    obtain ⟨c, rfl⟩ := buildLands_names _ _ hnm
    exact basicLandName_mem_basicNames c
  rw [hparts, List.countP_append, List.countP_append, hnl_spell, hnl_land, hb_spell, hb_land]
  refine ⟨hlen ▸ (hparts ▸ rfl), by omega, by omega⟩

set_option maxHeartbeats 2000000 in
/-- Witness for C1: a one-card pool of a plain white creature with archetype
`"auto"` satisfies the cleanliness hypothesis, and the amended theorem
yields the 40/23/complement shape for its deck. -/
theorem c1_deck_shape_witness :
    ((buildDeck [exWCreature] "auto").getD []).length = 40
      ∧ ((buildDeck [exWCreature] "auto").getD []).countP entryNonLand ≤ 23
      ∧ ((buildDeck [exWCreature] "auto").getD []).countP entryIsBasicName
          = 40 - ((buildDeck [exWCreature] "auto").getD []).countP entryNonLand :=
  c1_deck_shape [exWCreature] "auto" _ (by decide) (by with_unfolding_all decide)

theorem perm_diff_append [DecidableEq α] {ys xs : List α} (h : List.Subperm ys xs) :
    List.Perm xs (xs.diff ys ++ ys) := by
  induction ys generalizing xs with
  | nil => simp
  | cons y ys ih =>
    have hy : y ∈ xs := h.subset (List.mem_cons_self y ys)
    have hx : List.Perm xs (y :: xs.erase y) := List.perm_cons_erase hy
    have hys : List.Subperm ys (xs.erase y) :=
      (List.subperm_cons y).mp (h.trans hx.subperm)
    rw [List.diff_cons]
    exact hx.trans (((ih hys).cons y).trans List.perm_middle.symm)

theorem countP_not_add (p : α → Bool) (l : List α) :
    l.countP p + l.countP (fun a => !p a) = l.length := by
  induction l with
  | nil => simp
  | cons x xs ih =>
    rw [List.countP_cons, List.countP_cons]
    cases h : p x <;> simp [h] <;> omega

theorem lookup_min_creatures_le (l : List (String × Profile)) (a : String)
    (h : ∀ p ∈ l, p.2.min_creatures ≤ 23) :
    (((l.lookup a).map Profile.min_creatures).getD 14) ≤ 23 := by
  induction l with
  | nil => simp [List.lookup]
  | cons hd tl ih =>
    obtain ⟨k, v⟩ := hd
    simp only [List.lookup]
    split
    · simpa using h (k, v) (List.mem_cons_self _ _)
    · exact ih (fun p hp => h p (List.mem_cons_of_mem _ hp))

theorem minCreaturesOf_le (archetype : String) : minCreaturesOf archetype ≤ 23 :=
  lookup_min_creatures_le archetypeWeights archetype (by decide)

theorem evictListOf_subperm (l : List SCard) (m : ℕ) :
    List.Subperm (evictListOf l m) (l.take 23) := by
  unfold evictListOf
  refine (List.take_sublist _ _).subperm.trans ?_
  exact (pySortBy_perm _ _).subperm.trans (List.filter_sublist _).subperm

theorem evictListOf_noncreature (l : List SCard) (m : ℕ) :
    ∀ a ∈ evictListOf l m, a.card.isCreature = false := by
  intro a ha
  unfold evictListOf at ha
  have h1 := (pySortBy_perm _ _).subset (List.mem_of_mem_take ha)
  simpa using List.of_mem_filter h1

theorem evictListOf_length (l : List SCard) (m : ℕ) :
    (evictListOf l m).length
      = min (additionalOf l m).length
          ((l.take 23).filter (fun sc => !sc.card.isCreature)).length := by
  unfold evictListOf
  rw [List.length_take, ((pySortBy_perm _ _).length_eq)]
  omega

theorem additionalOf_countP (l : List SCard) (m : ℕ) :
    (additionalOf l m).countP (fun sc => sc.card.isCreature) = (additionalOf l m).length := by
  apply countP_eq_length_of
  intro a ha
  unfold additionalOf at ha
  have h1 : a ∈ (l.drop 23).filter (fun sc => sc.card.isCreature) :=
    List.mem_of_mem_take ha
  simpa using List.of_mem_filter h1

theorem additionalOf_length (l : List SCard) (m : ℕ)
    (h : m - (l.take 23).countP (fun sc => sc.card.isCreature)
        ≤ (l.drop 23).countP (fun sc => sc.card.isCreature)) :
    (additionalOf l m).length = m - (l.take 23).countP (fun sc => sc.card.isCreature) := by
  unfold additionalOf
  rw [List.length_take, ← List.countP_eq_length_filter]
  omega

theorem selectSpells_creature_count (l : List SCard) (m : ℕ) (hm : m ≤ 23)
    (hc : m ≤ l.countP (fun sc => sc.card.isCreature)) :
    m ≤ (selectSpells l m).countP (fun sc => sc.card.isCreature) := by
  have hsplit : (l.take 23).countP (fun sc => sc.card.isCreature)
      + (l.drop 23).countP (fun sc => sc.card.isCreature)
      = l.countP (fun sc => sc.card.isCreature) := by
    rw [← List.countP_append, List.take_append_drop]
  by_cases h1 : (l.take 23).countP (fun sc => sc.card.isCreature) < m
  · -- the repair branch runs
    have hneed : m - (l.take 23).countP (fun sc => sc.card.isCreature)
        ≤ (l.drop 23).countP (fun sc => sc.card.isCreature) := by omega
    have hAlen := additionalOf_length l m hneed
    have hAcre := additionalOf_countP l m
    have hperm := perm_diff_append (evictListOf_subperm l m)
    have hEcre : (evictListOf l m).countP (fun sc => sc.card.isCreature) = 0 :=
      countP_eq_zero_of (evictListOf_noncreature l m)
    have hDcre : ((l.take 23).diff (evictListOf l m)).countP (fun sc => sc.card.isCreature)
        = (l.take 23).countP (fun sc => sc.card.isCreature) := by
      have := hperm.countP_eq (fun sc => sc.card.isCreature)
      rw [List.countP_append, hEcre] at this
      omega
    have hDlen : ((l.take 23).diff (evictListOf l m)).length + (evictListOf l m).length
        = (l.take 23).length := by
      have := hperm.length_eq
      simp only [List.length_append] at this
      omega
    have hadj : adjustCreatures l m
        = (l.take 23).diff (evictListOf l m) ++ additionalOf l m := by
      unfold adjustCreatures
      rw [if_pos h1]
    have hadjcre : (adjustCreatures l m).countP (fun sc => sc.card.isCreature) = m := by
      rw [hadj, List.countP_append, hDcre, hAcre, hAlen]
      omega
    have hn0 : (l.take 23).countP (fun sc => sc.card.isCreature)
        + ((l.take 23).filter (fun sc => !sc.card.isCreature)).length
        = (l.take 23).length := by
      rw [← List.countP_eq_length_filter]
      exact countP_not_add _ _
    have htklen : (l.take 23).length ≤ 23 := by
      simp [List.length_take]
    have hadjlen : (adjustCreatures l m).length ≤ 23 := by
      rw [hadj, List.length_append, hAlen]
      have hk := evictListOf_length l m
      rw [hAlen] at hk
      rcases Nat.le_total (m - (l.take 23).countP (fun sc => sc.card.isCreature))
          (((l.take 23).filter (fun sc => !sc.card.isCreature)).length) with hle | hle
      · -- enough non-creatures to evict: the length stays at |take 23|
        omega
      · -- all non-creatures evicted: the remainder holds a creature,
        -- so the sorted playables number more than 23
        have hr1 : 1 ≤ (l.drop 23).countP (fun sc => sc.card.isCreature) := by omega
        have hr2 : (l.drop 23).countP (fun sc => sc.card.isCreature) ≤ (l.drop 23).length :=
          List.countP_le_length _
        have hlen24 : 24 ≤ l.length := by
          have := l.length_drop 23
          omega
        have htk23 : (l.take 23).length = 23 := by
          simp [List.length_take]
          omega
        omega
    have htr : truncate23 (adjustCreatures l m) = adjustCreatures l m := by
      unfold truncate23
      rw [if_neg (by omega)]
    unfold selectSpells
    rw [htr, hadjcre]
  · -- already enough creatures
    have hadj : adjustCreatures l m = l.take 23 := by
      unfold adjustCreatures
      rw [if_neg h1]
    have htr : truncate23 (adjustCreatures l m) = adjustCreatures l m := by
      unfold truncate23
      rw [if_neg (by simp [hadj, List.length_take])]
    unfold selectSpells
    rw [htr, hadj]
    omega

/-- Claim C4 counterexample: the claim counts the guaranteed creatures
"among non-land entries", but a card typed `"Land Creature"` counts toward
the creature quota while being a land entry.  A pool of 14 such cards (with
the default `min_creatures = 14` of archetype `"auto"`) has 14 playable
creatures, yet the deck holds zero creatures among its non-land entries. -/
theorem c4_counterexample :
    minCreaturesOf "auto" = 14
      ∧ (playablePool (List.replicate 14 exLandCreature) "auto").countP
          (fun sc => sc.card.isCreature) = 14
      ∧ (buildDeck (List.replicate 14 exLandCreature) "auto").map
          (fun d => d.countP (fun e => entryCreature e && entryNonLand e)) = some 0
      ∧ ¬ (14 ≤ 0) :=
  ⟨by decide, by decide, by with_unfolding_all decide, by decide⟩

/-- Claim C4 (amended): for every pool and archetype whose build returns a
deck, if the playable cards contain at least `min_creatures` creatures (the
archetype profile's value, default 14), then the deck contains at least
`min_creatures` creatures among its entries (the appended basic lands are
never creatures, so all of them sit in selected slots). -/
theorem c4_min_creature_enforcement (pool : List Card) (archetype : String)
    (deck : List DeckEntry)
    (hbuild : buildDeck pool archetype = some deck)
    (hcre : minCreaturesOf archetype
        ≤ (playablePool pool archetype).countP (fun sc => sc.card.isCreature)) :
    minCreaturesOf archetype ≤ deck.countP entryCreature := by
  rw [buildDeck_some_parts pool archetype deck hbuild, List.countP_append]
  have hland : ((buildLands (selectedOf pool archetype) (primaryOf pool archetype)).map
      DeckEntry.land).countP entryCreature = 0 := by
    rw [List.countP_map]
    exact countP_eq_zero_of (fun a _ => rfl)
  have hspell : ((selectedOf pool archetype).map DeckEntry.spell).countP entryCreature
      = (selectedOf pool archetype).countP (fun sc => sc.card.isCreature) := by
    rw [List.countP_map]
    rfl
  rw [hspell, hland]
  have hsorted : (sortedPlayablePool pool archetype).countP (fun sc => sc.card.isCreature)
      = (playablePool pool archetype).countP (fun sc => sc.card.isCreature) :=
    (pySortBy_perm _ _).countP_eq _
  have hmain := selectSpells_creature_count (sortedPlayablePool pool archetype)
    (minCreaturesOf archetype) (minCreaturesOf_le archetype)
    (by rw [hsorted]; exact hcre)
  unfold selectedOf
  omega

/-- A pool of 14 plain (non-land) creatures. -/
def exCreaturePool : List Card :=
  List.replicate 14 exWCreature

set_option maxHeartbeats 4000000 in
/-- Witness for C4: a pool of 14 white creatures under archetype `"auto"`
(whose default `min_creatures` is 14) meets the hypothesis, and its deck
carries at least 14 creatures. -/
theorem c4_min_creature_enforcement_witness :
    minCreaturesOf "auto"
      ≤ ((buildDeck exCreaturePool "auto").getD []).countP entryCreature :=
  c4_min_creature_enforcement exCreaturePool "auto" _ (by with_unfolding_all decide)
    (by with_unfolding_all decide)

theorem autoColors_pair (pool : List Card) {c1 c2 : Char}
    (h : autoColors pool = [c1, c2]) :
    c1 ∈ wubrgChars ∧ c2 ∈ wubrgChars ∧ c1 ≠ c2 := by
  have hperm := pySortBy_perm
    (fun a b => decide (colorCount pool b ≤ colorCount pool a)) wubrgChars
  have hnd : (pySortBy (fun a b => decide (colorCount pool b ≤ colorCount pool a))
      wubrgChars).Nodup := hperm.nodup_iff.mpr (by decide)
  have hndt : (autoColors pool).Nodup := (List.take_sublist 2 _).nodup hnd
  rw [h] at hndt
  have hm1 : c1 ∈ autoColors pool := h ▸ List.mem_cons_self _ _
  have hm2 : c2 ∈ autoColors pool := h ▸ List.mem_cons_of_mem _ (List.mem_cons_self _ _)
  have hmem : ∀ c ∈ autoColors pool, c ∈ wubrgChars := by
    intro c hc
    exact hperm.subset (List.mem_of_mem_take hc)
  refine ⟨hmem c1 hm1, hmem c2 hm2, ?_⟩
  simpa using hndt

theorem resolve_pair {pool : List Card} {archetype : String} {c1 c2 : Char}
    (h : resolvePrimaryColors pool archetype = [c1, c2]) :
    c1 ∈ wubrgChars ∧ c2 ∈ wubrgChars ∧ c1 ≠ c2 := by
  unfold resolvePrimaryColors at h
  split_ifs at h with h1 h2 h3 h4 h5
  · exact autoColors_pair pool h
  · have hfacts : archetype.toList.Nodup ∧ ∀ c ∈ archetype.toList, c ∈ wubrgChars := by
      fin_cases h2 <;> exact ⟨by decide, by decide⟩
    rw [h] at hfacts
    obtain ⟨hnd, hmem⟩ := hfacts
    exact ⟨hmem c1 (by simp), hmem c2 (by simp), by simpa using hnd⟩
  · have hlen3 : archetype.toList.length = 3 := by
      fin_cases h3 <;> decide
    rw [h] at hlen3
    simp at hlen3
  · simp at h
  · rw [show wubrgChars = ['W', 'U', 'B', 'R', 'G'] from rfl] at h
    simp at h
  · exact autoColors_pair pool h

theorem basicLandName_ne {c1 c2 : Char} (h1 : c1 ∈ wubrgChars) (h2 : c2 ∈ wubrgChars)
    (hne : c1 ≠ c2) : basicLandName c1 ≠ basicLandName c2 := by
  fin_cases h1 <;> fin_cases h2 <;> first | exact absurd rfl hne | decide

theorem ratFloorNat_int_eq {q : ℚ} (h : 0 ≤ q) : ((ratFloorNat q : ℤ)) = ⌊q⌋ :=
  Int.toNat_of_nonneg (Int.floor_nonneg.mpr h)

theorem buildLands_two_color (sel : List SCard) (c1 c2 : Char)
    (hlen : sel.length = 23) (hne : basicLandName c1 ≠ basicLandName c2)
    (hpos : 0 < symCount sel c1 + symCount sel c2) :
    (((buildLands sel [c1, c2]).count (basicLandName c1) : ℤ)
        - round ((17 * (symCount sel c1 : ℚ))
            / ((symCount sel c1 : ℚ) + (symCount sel c2 : ℚ)))).natAbs ≤ 1 := by
  have hsum : (([c1, c2]).map (symCount sel)).sum = symCount sel c1 + symCount sel c2 := by
    simp
  have htne : (([c1, c2]).map (symCount sel)).sum ≠ 0 := by
    rw [hsum]
    omega
  have hb_le := landsBySymbols_length_le (40 - sel.length) (symCount sel) [c1, c2] htne
  have hb_eq : landsBySymbols (40 - sel.length) (symCount sel)
      ((([c1, c2]).map (symCount sel)).sum) [c1, c2]
      = List.replicate (ratFloorNat (((40 - sel.length : ℕ) : ℚ) * (symCount sel c1 : ℚ)
            / (((([c1, c2]).map (symCount sel)).sum : ℕ) : ℚ))) (basicLandName c1)
        ++ List.replicate (ratFloorNat (((40 - sel.length : ℕ) : ℚ) * (symCount sel c2 : ℚ)
            / (((([c1, c2]).map (symCount sel)).sum : ℕ) : ℚ))) (basicLandName c2) := by
    simp [landsBySymbols]
  have hbuild : buildLands sel [c1, c2]
      = (landsBySymbols (40 - sel.length) (symCount sel)
          ((([c1, c2]).map (symCount sel)).sum) [c1, c2])
        ++ List.replicate ((40 - sel.length)
            - (landsBySymbols (40 - sel.length) (symCount sel)
                ((([c1, c2]).map (symCount sel)).sum) [c1, c2]).length)
          (basicLandName (pyMaxBy (symCount sel) [c1, c2])) := by
    unfold buildLands
    dsimp only
    rw [if_neg htne]
    have hglen : ((landsBySymbols (40 - sel.length) (symCount sel)
          ((([c1, c2]).map (symCount sel)).sum) [c1, c2])
        ++ List.replicate ((40 - sel.length)
            - (landsBySymbols (40 - sel.length) (symCount sel)
                ((([c1, c2]).map (symCount sel)).sum) [c1, c2]).length)
          (basicLandName (pyMaxBy (symCount sel) [c1, c2]))).length
        = 40 - sel.length := by
      simp only [List.length_append, List.length_replicate]
      omega
    rw [hglen, Nat.sub_self]
    rfl
  set T : ℕ := (([c1, c2]).map (symCount sel)).sum with hT
  set x : ℚ := ((40 - sel.length : ℕ) : ℚ) * (symCount sel c1 : ℚ) / ((T : ℕ) : ℚ) with hx
  set y : ℚ := ((40 - sel.length : ℕ) : ℚ) * (symCount sel c2 : ℚ) / ((T : ℕ) : ℚ) with hy
  have hTpos : 0 < T := by
    rw [hsum]
    exact hpos
  have hTq : (0 : ℚ) < (T : ℚ) := by exact_mod_cast hTpos
  have hTcast : (T : ℚ) = (symCount sel c1 : ℚ) + (symCount sel c2 : ℚ) := by
    rw [hsum]
    push_cast
    ring
  have h17 : ((40 - sel.length : ℕ) : ℚ) = 17 := by
    rw [hlen]
    norm_num
  have hx0 : 0 ≤ x := by
    rw [hx]
    positivity
  have hy0 : 0 ≤ y := by
    rw [hy]
    positivity
  have hxy : x + y = 17 := by
    rw [hx, hy, div_add_div_same, ← mul_add, ← hTcast, mul_div_assoc,
      div_self (ne_of_gt hTq), mul_one, h17]
  have hroundr : round ((17 * (symCount sel c1 : ℚ))
      / ((symCount sel c1 : ℚ) + (symCount sel c2 : ℚ))) = round x := by
    rw [hx, h17, hTcast]
  have hf1 : ((ratFloorNat x : ℕ) : ℤ) = ⌊x⌋ := ratFloorNat_int_eq hx0
  have hf2 : ((ratFloorNat y : ℕ) : ℤ) = ⌊y⌋ := ratFloorNat_int_eq hy0
  have hfsum_hi : ⌊x⌋ + ⌊y⌋ ≤ 17 := by
    have h1 : ((⌊x⌋ + ⌊y⌋ : ℤ) : ℚ) ≤ x + y := by
      push_cast
      exact add_le_add (Int.floor_le x) (Int.floor_le y)
    rw [hxy] at h1
    exact_mod_cast h1
  have hfsum_lo : 16 ≤ ⌊x⌋ + ⌊y⌋ := by
    have h1 : x - 1 < ⌊x⌋ := Int.sub_one_lt_floor x
    have h2 : y - 1 < ⌊y⌋ := Int.sub_one_lt_floor y
    have h3 : (15 : ℚ) < ((⌊x⌋ + ⌊y⌋ : ℤ) : ℚ) := by
      push_cast
      have h4 := add_lt_add h1 h2
      rw [show x - 1 + (y - 1) = x + y - 2 by ring, hxy] at h4
      linarith
    have h5 : (15 : ℤ) < ⌊x⌋ + ⌊y⌋ := by exact_mod_cast h3
    omega
  have hround_lo : ⌊x⌋ ≤ round x := by
    rw [round_eq]
    exact Int.floor_le_floor (by linarith)
  have hround_hi : round x ≤ ⌊x⌋ + 1 := by
    rw [round_eq]
    have h1 : ⌊x + 1/2⌋ ≤ ⌊x + 1⌋ := Int.floor_le_floor (by linarith)
    have h2 : ⌊x + 1⌋ = ⌊x⌋ + 1 := by exact_mod_cast Int.floor_add_int x 1
    omega
  have hn17 : 40 - sel.length = 17 := by
    rw [hlen]
  have hF_le : ratFloorNat x + ratFloorNat y ≤ 40 - sel.length := by
    have h1 := hb_le
    rw [hb_eq] at h1
    simpa [List.length_append] using h1
  rw [hbuild, hb_eq, List.count_append, List.count_append, List.count_replicate,
    List.count_replicate, List.count_replicate, hroundr]
  simp only [List.length_append, List.length_replicate, beq_iff_eq, Ne.symm hne,
    eq_self_iff_true, if_true, if_false, Nat.add_zero]
  rw [show pyMaxBy (symCount sel) [c1, c2]
    = (if symCount sel c1 < symCount sel c2 then c2 else c1) from rfl]
  by_cases hab : symCount sel c1 < symCount sel c2
  · rw [if_pos hab]
    simp only [Ne.symm hne, if_false]
    omega
  · rw [if_neg hab]
    simp only [eq_self_iff_true, if_true]
    omega

/-- Claim C5: for every pool and archetype resolving to two primary colors
(in particular every listed two-color archetype code), whenever the build
selects exactly 23 cards whose primary-symbol counts over the mana-cost
strings are (a, b) with a + b > 0, the number of first-color basic lands in
the resulting 17-land mana base differs from round(17·a/(a+b)) by at most
one. -/
theorem c5_two_color_land_split (pool : List Card) (archetype : String) (c1 c2 : Char)
    (hres : primaryOf pool archetype = [c1, c2])
    (hlen : (selectedOf pool archetype).length = 23)
    (hpos : 0 < symCount (selectedOf pool archetype) c1
        + symCount (selectedOf pool archetype) c2) :
    (((buildLands (selectedOf pool archetype) (primaryOf pool archetype)).count
          (basicLandName c1) : ℤ)
        - round ((17 * (symCount (selectedOf pool archetype) c1 : ℚ))
            / ((symCount (selectedOf pool archetype) c1 : ℚ)
              + (symCount (selectedOf pool archetype) c2 : ℚ)))).natAbs ≤ 1 := by
  obtain ⟨hw1, hw2, hne⟩ := resolve_pair (show resolvePrimaryColors pool archetype = [c1, c2] from hres)
  rw [hres]
  exact buildLands_two_color (selectedOf pool archetype) c1 c2 hlen
    (basicLandName_ne hw1 hw2 hne) hpos

/-- A pool of exactly 23 white creatures: the build selects all 23. -/
def exSelPool : List Card :=
  List.replicate 23 exWCreature

set_option maxHeartbeats 4000000 in
/-- Witness for C5: archetype `"WB"` on 23 white creatures with cost `{W}`
selects 23 cards with symbol counts (23, 0); all 17 lands are Plains and
round(17·23/23) = 17, so the distance is 0 ≤ 1. -/
theorem c5_two_color_land_split_witness :
    (((buildLands (selectedOf exSelPool "WB") (primaryOf exSelPool "WB")).count
          (basicLandName 'W') : ℤ)
        - round ((17 * (symCount (selectedOf exSelPool "WB") 'W' : ℚ))
            / ((symCount (selectedOf exSelPool "WB") 'W' : ℚ)
              + (symCount (selectedOf exSelPool "WB") 'B' : ℚ)))).natAbs ≤ 1 :=
  c5_two_color_land_split exSelPool "WB" 'W' 'B' (by decide)
    (by with_unfolding_all decide) (by with_unfolding_all decide)

set_option maxHeartbeats 2000000 in
/-- Claim C8: for the batch of one `"MONO_R"` deck built from a pool whose
only non-land card is the red common "X" (mana value 2, colors {R}), the
analysis counts exactly that card once in each statistic —
`most_common_cards = {"X": 1}`, `rarity_distribution = {"common": 1}`,
`mana_curve = {2: 1}` — while all 39 basic lands of the deck (matched by
their literal names) are excluded from every count. -/
theorem c8_analysis_smoke :
    (buildDeck [exRedCommon] "MONO_R").map
        (fun d => (mostCommonCards (flattenDecks [d]),
          rarityDistribution (flattenDecks [d]), manaCurve (flattenDecks [d])))
      = some ([("X", 1)], [("common", 1)], [((2 : ℚ), 1)])
      ∧ (buildDeck [exRedCommon] "MONO_R").map
          (fun d => d.countP entryIsBasicName) = some 39 :=
  ⟨by with_unfolding_all decide, by with_unfolding_all decide⟩

theorem perm_cons_eraseIdx (d : α) : ∀ (l : List α) (i : ℕ), i < l.length →
    List.Perm l (l.getD i d :: l.eraseIdx i)
  | x :: xs, 0, _ => List.Perm.refl _
  | x :: xs, i + 1, h => by
    have ih := perm_cons_eraseIdx d xs i (by simpa using Nat.lt_of_succ_lt_succ h)
    have h1 : List.Perm (x :: xs) (x :: (xs.getD i d :: xs.eraseIdx i)) := ih.cons x
    exact h1.trans (List.Perm.swap (xs.getD i d) x (xs.eraseIdx i))

theorem sampleGo_spec : ∀ (n : ℕ) (l : List Card) (st : List ℕ), n ≤ l.length →
    (sampleGo n l st).1.length = n ∧ List.Subperm (sampleGo n l st).1 l := by
  intro n
  induction n with
  | zero => exact fun l st _ => ⟨rfl, List.nil_subperm⟩
  | succ n ih =>
    intro l st h
    have hl : 0 < l.length := by omega
    have hi : st.headD 0 % l.length < l.length := Nat.mod_lt _ hl
    have heq : sampleGo (n + 1) l st
        = ((l.getD (st.headD 0 % l.length) default)
              :: (sampleGo n (l.eraseIdx (st.headD 0 % l.length)) st.tail).1,
           (sampleGo n (l.eraseIdx (st.headD 0 % l.length)) st.tail).2) := rfl
    have hlen : (l.eraseIdx (st.headD 0 % l.length)).length + 1 = l.length :=
      List.length_eraseIdx_add_one hi
    have hrec := ih (l.eraseIdx (st.headD 0 % l.length)) st.tail (by omega)
    constructor
    · rw [heq]
      simpa using hrec.1
    · rw [heq]
      have h1 : List.Subperm
          ((l.getD (st.headD 0 % l.length) default)
            :: (sampleGo n (l.eraseIdx (st.headD 0 % l.length)) st.tail).1)
          ((l.getD (st.headD 0 % l.length) default)
            :: l.eraseIdx (st.headD 0 % l.length)) :=
        (List.subperm_cons _).mpr hrec.2
      exact h1.trans (perm_cons_eraseIdx default l _ hi).symm.subperm

theorem sample_le {l : List Card} {n : ℕ} {st : List ℕ} {v : List Card × List ℕ}
    (h : sample l n st = some v) : n ≤ l.length := by
  unfold sample at h
  split at h
  · assumption
  · cases h

theorem sample_spec {l : List Card} {n : ℕ} {st : List ℕ} {res : List Card} {st' : List ℕ}
    (h : sample l n st = some (res, st')) :
    res.length = n ∧ List.Subperm res l := by
  have hle := sample_le h
  unfold sample at h
  rw [if_pos hle] at h
  injection h with h2
  obtain ⟨ha, hb⟩ := sampleGo_spec n l st hle
  rw [h2] at ha hb
  exact ⟨ha, hb⟩

theorem choiceCard_spec {catalog : List Card} {st : List ℕ} {x : Card} {st' : List ℕ}
    (h : choiceCard catalog st = some (x, st')) : x ∈ catalog := by
  unfold choiceCard at h
  split at h
  · cases h
  · injection h with h2
    have hx : catalog.getD (st.headD 0 % catalog.length) default = x :=
      congrArg Prod.fst h2
    have hpos : 0 < catalog.length := by
      cases catalog with
      | nil => simp [List.isEmpty] at *
      | cons a l => simp
    have hi : st.headD 0 % catalog.length < catalog.length := Nat.mod_lt _ hpos
    rw [← hx, List.getD_eq_getElem _ _ hi]
    exact List.getElem_mem hi

theorem choiceCard_ne {catalog : List Card} {st : List ℕ} {v : Card × List ℕ}
    (h : choiceCard catalog st = some v) : catalog ≠ [] := by
  unfold choiceCard at h
  split at h
  · cases h
  · intro hnil
    subst hnil
    simp at *

theorem makePack_some_parts {catalog : List Card} {st : List ℕ} {p : List Card}
    {st' : List ℕ} (h : makePack catalog st = some (p, st')) :
    ∃ cs st1 us st2 rs st3 xr,
      sample (commonsOf catalog) 10 st = some (cs, st1)
        ∧ sample (uncommonsOf catalog) 3 st1 = some (us, st2)
        ∧ sample (raresOf catalog) 1 st2 = some (rs, st3)
        ∧ choiceCard catalog st3 = some (xr, st')
        ∧ p = cs ++ us ++ rs ++ [xr] := by
  unfold makePack at h
  rcases h1 : sample (commonsOf catalog) 10 st with _ | ⟨cs, st1⟩
  · rw [h1] at h
    simp at h
  · rw [h1] at h
    simp only [Option.some_bind] at h
    rcases h2 : sample (uncommonsOf catalog) 3 st1 with _ | ⟨us, st2⟩
    · rw [h2] at h
      simp at h
    · rw [h2] at h
      simp only [Option.some_bind] at h
      rcases h3 : sample (raresOf catalog) 1 st2 with _ | ⟨rs, st3⟩
      · rw [h3] at h
        simp at h
      · rw [h3] at h
        simp only [Option.some_bind] at h
        rcases h4 : choiceCard catalog st3 with _ | ⟨xr, st4⟩
        · rw [h4] at h
          simp at h
        · rw [h4] at h
          simp only [Option.map_some'] at h
          injection h with h5
          have hp : p = cs ++ us ++ rs ++ [xr] := (congrArg Prod.fst h5).symm
          have hst : st4 = st' := congrArg Prod.snd h5
          exact ⟨cs, st1, us, st2, rs, st3, xr, h1 ▸ rfl, h2, h3, hst ▸ h4, hp⟩

theorem makePack_pack {catalog : List Card} {st : List ℕ} {p : List Card} {st' : List ℕ}
    (h : makePack catalog st = some (p, st')) : IsPack catalog p := by
  obtain ⟨cs, st1, us, st2, rs, st3, xr, h1, h2, h3, h4, hp⟩ := makePack_some_parts h
  obtain ⟨hcl, hcs⟩ := sample_spec h1
  obtain ⟨hul, hus⟩ := sample_spec h2
  obtain ⟨hrl, hrs⟩ := sample_spec h3
  have hx := choiceCard_spec h4
  subst hp
  suffices hS : IsPack catalog (cs ++ (us ++ (rs ++ [xr]))) by
    simpa [List.append_assoc] using hS
  have ht10 : (cs ++ (us ++ (rs ++ [xr]))).take 10 = cs := by
    rw [← hcl, List.take_left]
  have hd10 : (cs ++ (us ++ (rs ++ [xr]))).drop 10 = us ++ (rs ++ [xr]) := by
    rw [← hcl, List.drop_left]
  have ht3 : (us ++ (rs ++ [xr])).take 3 = us := by
    rw [← hul, List.take_left]
  have hd13 : (cs ++ (us ++ (rs ++ [xr]))).drop 13 = rs ++ [xr] := by
    have h13 : (13 : ℕ) = 10 + 3 := rfl
    rw [h13, ← List.drop_drop, hd10, ← hul, List.drop_left]
  have ht1 : (rs ++ [xr]).take 1 = rs := by
    rw [← hrl, List.take_left]
  have hd14 : (cs ++ (us ++ (rs ++ [xr]))).drop 14 = [xr] := by
    have h14 : (14 : ℕ) = 13 + 1 := rfl
    rw [h14, ← List.drop_drop, hd13, ← hrl, List.drop_left]
  refine ⟨?_, ?_, ?_, ?_, ?_⟩
  · simp [hcl, hul, hrl]
  · rw [ht10]
    exact hcs
  · rw [hd10, ht3]
    exact hus
  · rw [hd13, ht1]
    exact hrs
  · rw [hd14]
    intro z hz
    simp at hz
    subst hz
    exact hx

theorem makePack_isSome_of {catalog : List Card} (st : List ℕ)
    (h10 : 10 ≤ (commonsOf catalog).length) (h3 : 3 ≤ (uncommonsOf catalog).length)
    (h1 : 1 ≤ (raresOf catalog).length) (hne : catalog ≠ []) :
    (makePack catalog st).isSome := by
  unfold makePack sample choiceCard
  rw [if_pos h10, Option.some_bind, if_pos h3, Option.some_bind, if_pos h1,
    Option.some_bind, if_neg (by simpa [List.isEmpty_iff] using hne)]
  simp

theorem makePacks_some_spec : ∀ (k : ℕ) (catalog : List Card) (st : List ℕ)
    (pool : List Card), makePacks k catalog st = some pool →
    pool.length = 15 * k
      ∧ ∃ packs : List (List Card), packs.length = k ∧ pool = packs.flatten
          ∧ ∀ p ∈ packs, IsPack catalog p := by
  intro k
  induction k with
  | zero =>
    intro catalog st pool h
    injection h with h1
    subst h1
    exact ⟨rfl, [], rfl, rfl, by simp⟩
  | succ k ih =>
    intro catalog st pool h
    unfold makePacks at h
    rcases h1 : makePack catalog st with _ | ⟨p, st'⟩
    · rw [h1] at h
      simp at h
    · rw [h1] at h
      simp only [Option.some_bind] at h
      rcases h2 : makePacks k catalog st' with _ | pool'
      · rw [h2] at h
        simp at h
      · rw [h2] at h
        simp only [Option.map_some'] at h
        injection h with h3
        obtain ⟨hplen, packs, hk, hfl, hpk⟩ := ih catalog st' pool' h2
        have hpack : IsPack catalog p := makePack_pack h1
        refine ⟨?_, p :: packs, by simp [hk], ?_, ?_⟩
        · rw [← h3, List.length_append, hplen, hpack.1]
          ring
        · rw [← h3, List.flatten_cons, hfl]
        · intro q hq
          rcases List.mem_cons.mp hq with hq1 | hq1
          · exact hq1 ▸ hpack
          · exact hpk q hq1

theorem makePacks_isSome_of {catalog : List Card} (k : ℕ) (st : List ℕ)
    (h10 : 10 ≤ (commonsOf catalog).length) (h3 : 3 ≤ (uncommonsOf catalog).length)
    (h1 : 1 ≤ (raresOf catalog).length) (hne : catalog ≠ []) :
    (makePacks k catalog st).isSome := by
  induction k generalizing st with
  | zero => simp [makePacks]
  | succ k ih =>
    unfold makePacks
    obtain ⟨⟨p, st'⟩, hp⟩ := Option.isSome_iff_exists.mp (makePack_isSome_of st h10 h3 h1 hne)
    rw [hp, Option.some_bind]
    obtain ⟨pool', hpool⟩ := Option.isSome_iff_exists.mp (ih st')
    rw [hpool]
    simp

/-- Claim C7: `generate_sealed_pool` succeeds exactly when the catalog is
non-empty and each rarity tier covers one pack (10 commons, 3 uncommons,
1 rare-or-mythic); a successful pool has exactly 90 cards and decomposes
into six packs, each being 10 commons, 3 uncommons and 1 rare-or-mythic
drawn without replacement within the pack (a sub-multiset of the tier)
plus one card of the whole catalog in the land slot.  The random stream is
explicit; "drawn uniformly" is modelled as reachability of every index. -/
theorem c7_sealed_pool (catalog : List Card) (st : List ℕ) :
    ((generateSealedPool catalog st).isSome ↔
      (catalog ≠ [] ∧ 10 ≤ (commonsOf catalog).length ∧ 3 ≤ (uncommonsOf catalog).length
        ∧ 1 ≤ (raresOf catalog).length))
    ∧ (∀ pool, generateSealedPool catalog st = some pool →
        pool.length = 90
          ∧ ∃ packs : List (List Card), packs.length = 6 ∧ pool = packs.flatten
              ∧ ∀ p ∈ packs, IsPack catalog p) := by
  constructor
  · constructor
    · intro h
      unfold generateSealedPool at h
      split at h
      · simp at h
      · have hne : catalog ≠ [] := by
          intro hnil
          subst hnil
          simp_all
        obtain ⟨pool, hpool⟩ := Option.isSome_iff_exists.mp h
        have h6 : makePacks 6 catalog st = some pool := hpool
        unfold makePacks at h6
        rcases h1 : makePack catalog st with _ | ⟨p, st'⟩
        · rw [h1] at h6
          simp at h6
        · obtain ⟨cs, st1, us, st2, rs, st3, xr, hs1, hs2, hs3, hs4, _⟩ :=
            makePack_some_parts (by rw [h1])
          exact ⟨hne, sample_le hs1, sample_le hs2, sample_le hs3⟩
    · rintro ⟨hne, h10, h3, h1⟩
      unfold generateSealedPool
      rw [if_neg (by simpa [List.isEmpty_iff] using hne)]
      exact makePacks_isSome_of 6 st h10 h3 h1 hne
  · intro pool h
    unfold generateSealedPool at h
    split at h
    · cases h
    · obtain ⟨hlen, packs, hk, hfl, hpk⟩ := makePacks_some_spec 6 catalog st pool h
      exact ⟨by omega, packs, hk, hfl, hpk⟩

set_option maxHeartbeats 2000000 in
/-- Witness for C7: on a catalog of exactly 10 commons, 3 uncommons and one
rare, the generator succeeds and the theorem evaluates the pool to 90
cards. -/
theorem c7_sealed_pool_witness :
    ((generateSealedPool exCatalog []).getD []).length = 90 :=
  ((c7_sealed_pool exCatalog []).2 _ (by with_unfolding_all decide)).1
